import Mathlib

/-!
Verification of the motion-correction orchestration layer of `jnormcorre`:
parameter translation from physical units to pixels (`correct_stack.compute_shifts`),
temporal chunk planning and sampling-count resolution
(`official_demo_script.motion_correct_pipeline`), the persisted shift archive,
and the final shift extraction of `compute_shifts`.

Pure functions of the Python sources are embedded as Lean functions over
`ℕ`, `ℤ` and `ℚ`.  Behaviour of the registration engine
(`jnormcorre.motion_correction`), which the orchestration code calls but whose
sources are not part of this development, is modelled from the specification
where a claim depends on it; each such definition is marked
`Modelled from the spec`.
-/

/-- A temporal chunk: the half-open frame-index range `[start, stop)`. -/
structure Chunk where
  start : ℕ
  stop : ℕ
deriving DecidableEq, Repr

/-- A chunk together with a membership predicate: frame `t` lies in the chunk. -/
def Chunk.mem (c : Chunk) (t : ℕ) : Prop := c.start ≤ t ∧ t < c.stop

instance (c : Chunk) (t : ℕ) : Decidable (c.mem t) := by
  unfold Chunk.mem; infer_instance

/-- The chunk count computed by the pipeline:
`splits = math.ceil(total_frames / frames_per_split)` in
`official_demo_script.motion_correct_pipeline` (line 113), identically
`splits = int(np.ceil(nt / splits))` in `correct_stack.compute_shifts`
(line 37).  For naturals this ceiling is `(T + fps - 1) / fps`. -/
def numChunks (totalFrames framesPerSplit : ℕ) : ℕ :=
  (totalFrames + framesPerSplit - 1) / framesPerSplit

/-- Modelled from the spec: the chunk construction itself happens inside the
registration engine (`jnormcorre.motion_correction`, not among these sources).
The spec states chunks partition `[0, T)` contiguously and exhaustively, each
of length at most `frames_per_split`, the last chunk possibly shorter, with
`num_chunks = ceil(T / frames_per_split)`.  Chunk `i` is
`[i * fps, min ((i+1) * fps) T)`. -/
def planChunks (totalFrames framesPerSplit : ℕ) : List Chunk :=
  (List.range (numChunks totalFrames framesPerSplit)).map
    (fun i => ⟨i * framesPerSplit, min ((i + 1) * framesPerSplit) totalFrames⟩)

/-- Modelled from the spec: the `splits_rig` / `splits_els` value handed to the
engine is the number of temporal chunks (the demo computes it as
`ceil(T / frames_per_split)` and logs it as "Number of chunks"), so a chunk
count `n` corresponds to `frames_per_split = ceil(T / n)`, and the engine's
chunks are the spec partition for that chunk size. -/
def engineChunks (totalFrames numSplits : ℕ) : List Chunk :=
  planChunks totalFrames (numChunks totalFrames numSplits)

/-- A Python argument that is either a scalar or a 2-tuple, as accepted by
`compute_shifts` for `pixel_size_um` and `max_shift_um`. -/
inductive ScalarOrPair where
  | scalar (s : ℚ)
  | pair (p : ℚ × ℚ)

/-- The normalisation `if not isinstance(x, tuple): x = (x, x)` performed by
`compute_shifts` (lines 39-42). -/
def ScalarOrPair.toPair : ScalarOrPair → ℚ × ℚ
  | .scalar s => (s, s)
  | .pair p => p

/-- Python `int(...)` applied to a quotient: truncation toward zero, which is
the floor for non-negative arguments and the ceiling for negative ones. -/
def pyInt (q : ℚ) : ℤ := if 0 ≤ q then ⌊q⌋ else ⌈q⌉

/-- The translation
`max_shifts = [int(a / b) for a, b in zip(max_shift_um, pixel_size_um)]`
of `compute_shifts` (line 44), after scalar normalisation. -/
def maxShiftsOf (maxShiftUm pixelSizeUm : ScalarOrPair) : ℤ × ℤ :=
  (pyInt (maxShiftUm.toPair.1 / pixelSizeUm.toPair.1),
   pyInt (maxShiftUm.toPair.2 / pixelSizeUm.toPair.2))

/-- The translation
`strides = tuple([int(a / b) for a, b in zip(patch_motion_um, pixel_size_um)])`
of `compute_shifts` (line 45). -/
def stridesOf (patchMotionUm : ℚ × ℚ) (pixelSizeUm : ScalarOrPair) : ℤ × ℤ :=
  (pyInt (patchMotionUm.1 / pixelSizeUm.toPair.1),
   pyInt (patchMotionUm.2 / pixelSizeUm.toPair.2))

/-- The full keyword configuration assembled by `correct_stack.compute_shifts`
(lines 47-66), together with the two hard-wired call choices: the corrector is
constructed with `pw_rigid=False` and `motion_correct` is called with
`save_movie=False`. -/
structure ComputeShiftsConfig where
  minMov : ℤ
  niterRig : ℕ
  niterEls : ℕ
  nonnegMovie : Bool
  numSplitsToProcessEls : Option ℕ
  numSplitsToProcessRig : Option ℕ
  splitsEls : ℕ
  splitsRig : ℕ
  upsampleFactorGrid : ℕ
  maxShifts : ℤ × ℤ
  strides : ℤ × ℤ
  gSigFilt : Option (ℚ × ℚ)
  overlaps : ℤ × ℤ
  maxDeviationRigid : ℤ
  pwRigid : Bool
  saveMovie : Bool

/-- The configuration and call produced by `correct_stack.compute_shifts` from
its arguments (`nt` is the temporal length of the input stack). -/
def computeShiftsCall (nt : ℕ) (pixelSizeUm maxShiftUm : ScalarOrPair)
    (maxDeviationRigid : ℤ) (patchMotionUm : ℚ × ℚ) (overlaps : ℤ × ℤ)
    (splits : ℕ) (gSigFilt : Option (ℚ × ℚ)) : ComputeShiftsConfig :=
  { minMov := -5
    niterRig := 4
    niterEls := 1
    nonnegMovie := true
    numSplitsToProcessEls := none
    numSplitsToProcessRig := none
    splitsEls := numChunks nt splits
    splitsRig := numChunks nt splits
    upsampleFactorGrid := 4
    maxShifts := maxShiftsOf maxShiftUm pixelSizeUm
    strides := stridesOf patchMotionUm pixelSizeUm
    gSigFilt := gSigFilt
    overlaps := overlaps
    maxDeviationRigid := maxDeviationRigid
    pwRigid := false
    saveMovie := false }

/-- The final extraction of `compute_shifts` (lines 68-70):
`shifts_y, shifts_x = - np.vstack(corrector.shifts_rig).T` followed by
`return shifts_x, shifts_y`.  Each engine record is a pair `(r₁, r₂)`; the
returned pair is `(shifts_x, shifts_y)`. -/
def extractShifts (records : List (ℚ × ℚ)) : List ℚ × List ℚ :=
  (records.map (fun r => -r.2), records.map (fun r => -r.1))

/-- The configuration dictionary assembled by
`official_demo_script.motion_correct_pipeline` (lines 106-134) before the
corrector is constructed. -/
structure PipelineConfig where
  upsampleFactorGrid : ℕ
  strides : ℤ × ℤ
  overlaps : ℤ × ℤ
  maxShifts : ℤ × ℤ
  maxDeviationRigid : ℤ
  pwRigid : Bool
  niterEls : Option ℕ
  niterRig : ℕ
  numSplitsToProcessEls : ℕ
  numSplitsToProcessRig : ℕ
  splitsEls : ℕ
  splitsRig : ℕ

/-- The dictionary construction of `motion_correct_pipeline`:
`splits = ceil(total_frames / frames_per_split)`, the sampling counts are
clipped with `min(requested, splits)`, and `niter_els = 1` is set only in the
piecewise-rigid branch. -/
def motionCorrectPipelineDict (totalFrames : ℕ) (maxShifts : ℤ × ℤ)
    (maxDeviationRigid : ℤ) (framesPerSplit : ℕ)
    (numSplitsToProcessEls numSplitsToProcessRig : ℕ) (pwRigid : Bool)
    (strides overlaps : ℤ × ℤ) (niterRig : ℕ) : PipelineConfig :=
  { upsampleFactorGrid := 4
    strides := strides
    overlaps := overlaps
    maxShifts := maxShifts
    maxDeviationRigid := maxDeviationRigid
    pwRigid := pwRigid
    niterEls := if pwRigid then some 1 else none
    niterRig := niterRig
    numSplitsToProcessEls :=
      min numSplitsToProcessEls (numChunks totalFrames framesPerSplit)
    numSplitsToProcessRig :=
      min numSplitsToProcessRig (numChunks totalFrames framesPerSplit)
    splitsEls := numChunks totalFrames framesPerSplit
    splitsRig := numChunks totalFrames framesPerSplit }

/-- The error raised on invalid patch geometry. -/
inductive ConfigurationError where
  | patchGeometry
deriving DecidableEq, Repr

/-- Modelled from the spec: the geometric validation performed when the
configuration is constructed (inside the `MotionCorrect` constructor of
`jnormcorre.motion_correction`, not among these sources).  With
`pw_rigid=True`, `strides[i] + overlaps[i] ≥ FOV_dim[i]` on any axis is a
`ConfigurationError`, raised before any frame is read; an accepted
configuration is returned unchanged, never silently corrected. -/
def validateConfig (fovDim : ℤ × ℤ) (cfg : PipelineConfig) :
    Except ConfigurationError PipelineConfig :=
  if cfg.pwRigid = true ∧
      (fovDim.1 ≤ cfg.strides.1 + cfg.overlaps.1 ∨
       fovDim.2 ≤ cfg.strides.2 + cfg.overlaps.2)
  then .error .patchGeometry
  else .ok cfg

/-- Modelled from the spec: the RigidCorrector produces exactly one rigid
displacement per frame, in frame order (`register` stands for the opaque
engine primitive). -/
def rigidShiftRecords {α : Type} (register : α → ℚ × ℚ) (frames : List α) :
    List (ℚ × ℚ) :=
  frames.map register

/-- The persisted shift archive written by `motion_correct_pipeline`
(lines 146-149) via `np.savez`. -/
structure ShiftArchive where
  shiftsRig : List (ℚ × ℚ)
  xShiftsEls : Option (List (List ℚ))
  yShiftsEls : Option (List (List ℚ))

/-- The archive construction of `motion_correct_pipeline`:
`shifts_rig=corrector.shifts_rig`,
`x_shifts_els=corrector.x_shifts_els if pw_rigid else None`, and likewise for
`y_shifts_els`. -/
def saveShifts (pwRigid : Bool) (shiftsRig : List (ℚ × ℚ))
    (xShiftsEls yShiftsEls : List (List ℚ)) : ShiftArchive :=
  { shiftsRig := shiftsRig
    xShiftsEls := if pwRigid then some xShiftsEls else none
    yShiftsEls := if pwRigid then some yShiftsEls else none }

/-- Modelled from the spec: the `PATCH_CORRECTING` stage is skipped entirely
when `pw_rigid=False`, so no per-patch displacement grids are produced by such
a run; when it does run, the per-axis grids are exposed. -/
def elsShiftsOfRun (pwRigid : Bool) (xGrids yGrids : List (List ℚ)) :
    Option (List (List ℚ)) × Option (List (List ℚ)) :=
  match pwRigid with
  | true => (some xGrids, some yGrids)
  | false => (none, none)

/-! Theorems -/

/-- C2: the resolved sampling counts produced by `motion_correct_pipeline`
never exceed the chunk count, equal the requested values whenever those are at
most the chunk count, and an over-large request is clipped by a saturating
`min`, never an error. -/
theorem num_splits_to_process_clipped (totalFrames framesPerSplit : ℕ)
    (reqEls reqRig : ℕ) (ms : ℤ × ℤ) (mdr : ℤ) (pw : Bool) (st ov : ℤ × ℤ)
    (nr : ℕ) :
    (motionCorrectPipelineDict totalFrames ms mdr framesPerSplit reqEls reqRig
        pw st ov nr).numSplitsToProcessRig ≤ numChunks totalFrames framesPerSplit ∧
    (motionCorrectPipelineDict totalFrames ms mdr framesPerSplit reqEls reqRig
        pw st ov nr).numSplitsToProcessEls ≤ numChunks totalFrames framesPerSplit ∧
    (reqRig ≤ numChunks totalFrames framesPerSplit →
      (motionCorrectPipelineDict totalFrames ms mdr framesPerSplit reqEls reqRig
          pw st ov nr).numSplitsToProcessRig = reqRig) ∧
    (reqEls ≤ numChunks totalFrames framesPerSplit →
      (motionCorrectPipelineDict totalFrames ms mdr framesPerSplit reqEls reqRig
          pw st ov nr).numSplitsToProcessEls = reqEls) := by
  refine ⟨Nat.min_le_right _ _, Nat.min_le_right _ _, ?_, ?_⟩ <;>
    intro h <;> simpa [motionCorrectPipelineDict] using Nat.min_eq_left h

/-- Witness for C2 at a concrete instance: 1000 frames, 100 frames per split
(10 chunks), requested sampling counts 5 and 15. -/
theorem num_splits_to_process_clipped_witness :
    (motionCorrectPipelineDict 1000 (6, 6) 3 100 15 5 false (30, 30) (10, 10)
        4).numSplitsToProcessRig ≤ numChunks 1000 100 ∧
    (motionCorrectPipelineDict 1000 (6, 6) 3 100 15 5 false (30, 30) (10, 10)
        4).numSplitsToProcessEls ≤ numChunks 1000 100 ∧
    (5 ≤ numChunks 1000 100 →
      (motionCorrectPipelineDict 1000 (6, 6) 3 100 15 5 false (30, 30) (10, 10)
          4).numSplitsToProcessRig = 5) ∧
    (15 ≤ numChunks 1000 100 →
      (motionCorrectPipelineDict 1000 (6, 6) 3 100 15 5 false (30, 30) (10, 10)
          4).numSplitsToProcessEls = 15) :=
  num_splits_to_process_clipped 1000 100 15 5 (6, 6) 3 false (30, 30) (10, 10) 4

/-- C4: a scalar physical-unit argument is broadcast to both axes, producing
exactly the same translation results as the equivalent 2-tuple, for both
`pixel_size_um` and `max_shift_um`, in `max_shifts` as well as `strides`. -/
theorem scalar_broadcasts_like_pair (s t : ℚ) (pm : ℚ × ℚ)
    (ms px : ScalarOrPair) :
    ScalarOrPair.toPair (.scalar s) = ScalarOrPair.toPair (.pair (s, s)) ∧
    maxShiftsOf ms (.scalar s) = maxShiftsOf ms (.pair (s, s)) ∧
    maxShiftsOf (.scalar t) px = maxShiftsOf (.pair (t, t)) px ∧
    stridesOf pm (.scalar s) = stridesOf pm (.pair (s, s)) :=
  ⟨rfl, rfl, rfl, rfl⟩

/-- C9: the pair returned by `compute_shifts` is the elementwise negation of
the engine's accumulated rigid records with the axis order swapped: position
`i` of the first returned sequence (`shifts_x`) is the negated second
component of record `i`, and position `i` of the second returned sequence
(`shifts_y`) is the negated first component of record `i`. -/
theorem extract_shifts_negates_and_swaps (records : List (ℚ × ℚ)) :
    (extractShifts records).1.length = records.length ∧
    (extractShifts records).2.length = records.length ∧
    ∀ i : ℕ,
      (extractShifts records).1[i]? = (records[i]?).map (fun r => -r.2) ∧
      (extractShifts records).2[i]? = (records[i]?).map (fun r => -r.1) := by
  refine ⟨by simp [extractShifts], by simp [extractShifts], fun i => ⟨?_, ?_⟩⟩ <;>
    simp [extractShifts]

/-- C10: for every combination of caller-supplied arguments, `compute_shifts`
constructs the corrector with `pw_rigid=False`, calls `motion_correct` with
`save_movie=False`, fixes `niter_rig=4`, `niter_els=1`,
`upsample_factor_grid=4`, `min_mov=-5` and `num_splits_to_process_rig=None`,
and consequently (the patch stage being skipped when `pw_rigid=False`) never
produces piecewise-rigid shifts. -/
theorem compute_shifts_rigid_only (nt : ℕ) (px ms : ScalarOrPair) (mdr : ℤ)
    (pm : ℚ × ℚ) (ov : ℤ × ℤ) (splits : ℕ) (g : Option (ℚ × ℚ)) :
    (computeShiftsCall nt px ms mdr pm ov splits g).pwRigid = false ∧
    (computeShiftsCall nt px ms mdr pm ov splits g).saveMovie = false ∧
    (computeShiftsCall nt px ms mdr pm ov splits g).niterRig = 4 ∧
    (computeShiftsCall nt px ms mdr pm ov splits g).niterEls = 1 ∧
    (computeShiftsCall nt px ms mdr pm ov splits g).upsampleFactorGrid = 4 ∧
    (computeShiftsCall nt px ms mdr pm ov splits g).minMov = -5 ∧
    (computeShiftsCall nt px ms mdr pm ov splits g).numSplitsToProcessRig = none ∧
    ∀ xGrids yGrids,
      elsShiftsOfRun (computeShiftsCall nt px ms mdr pm ov splits g).pwRigid
        xGrids yGrids = (none, none) :=
  ⟨rfl, rfl, rfl, rfl, rfl, rfl, rfl, fun _ _ => rfl⟩

/-- C3: for non-negative physical quantities and positive pixel sizes, the
truncating conversion `int(a / b)` agrees with `floor(a / b)`, elementwise for
both `max_shifts` and `strides`. -/
theorem pixel_translation_is_floor (ms pm px : ℚ × ℚ)
    (hms1 : 0 ≤ ms.1) (hms2 : 0 ≤ ms.2) (hpm1 : 0 ≤ pm.1) (hpm2 : 0 ≤ pm.2)
    (hpx1 : 0 < px.1) (hpx2 : 0 < px.2) :
    maxShiftsOf (.pair ms) (.pair px) = (⌊ms.1 / px.1⌋, ⌊ms.2 / px.2⌋) ∧
    stridesOf pm (.pair px) = (⌊pm.1 / px.1⌋, ⌊pm.2 / px.2⌋) := by
  have key : ∀ a b : ℚ, 0 ≤ a → 0 < b → pyInt (a / b) = ⌊a / b⌋ := by
    intro a b ha hb
    simp [pyInt, div_nonneg ha hb.le]
  exact ⟨Prod.ext (key _ _ hms1 hpx1) (key _ _ hms2 hpx2),
         Prod.ext (key _ _ hpm1 hpx1) (key _ _ hpm2 hpx2)⟩

/-- Witness for C3 at the demo's physical parameters: max shift 12 um, patch
size 50 um, pixel size 2 um per pixel. -/
theorem pixel_translation_is_floor_witness :
    maxShiftsOf (.pair (12, 12)) (.pair (2, 2)) =
      (⌊(12 : ℚ) / 2⌋, ⌊(12 : ℚ) / 2⌋) ∧
    stridesOf (50, 50) (.pair (2, 2)) = (⌊(50 : ℚ) / 2⌋, ⌊(50 : ℚ) / 2⌋) :=
  pixel_translation_is_floor (12, 12) (50, 50) (2, 2) (by norm_num) (by norm_num)
    (by norm_num) (by norm_num) (by norm_num) (by norm_num)

/-- C5: a configuration with `pw_rigid=True` violating
`strides[i] + overlaps[i] < FOV_dim[i]` on some axis is rejected with a
`ConfigurationError` at construction, and validation never silently alters an
accepted configuration. -/
theorem pw_rigid_geometry_rejected (fovDim : ℤ × ℤ) (cfg : PipelineConfig)
    (hpw : cfg.pwRigid = true)
    (hviol : fovDim.1 ≤ cfg.strides.1 + cfg.overlaps.1 ∨
             fovDim.2 ≤ cfg.strides.2 + cfg.overlaps.2) :
    validateConfig fovDim cfg = .error .patchGeometry ∧
    ∀ (fov : ℤ × ℤ) (c out : PipelineConfig),
      validateConfig fov c = .ok out → out = c := by
  constructor
  · simp [validateConfig, hpw, hviol]
  · intro fov c out h
    by_cases hc : c.pwRigid = true ∧
        (fov.1 ≤ c.strides.1 + c.overlaps.1 ∨ fov.2 ≤ c.strides.2 + c.overlaps.2)
    · simp [validateConfig, hc] at h
    · simp [validateConfig, hc] at h
      exact h.symm

/-- Witness for C5: a 25x25 field of view with the demo's pixel-space patch
parameters `strides=(30,30)`, `overlaps=(10,10)` and `pw_rigid=True`. -/
theorem pw_rigid_geometry_rejected_witness :
    validateConfig (25, 25)
      (motionCorrectPipelineDict 2000 (6, 6) 3 1000 5 5 true (30, 30) (10, 10) 4)
      = .error .patchGeometry ∧
    ∀ (fov : ℤ × ℤ) (c out : PipelineConfig),
      validateConfig fov c = .ok out → out = c :=
  pw_rigid_geometry_rejected (25, 25)
    (motionCorrectPipelineDict 2000 (6, 6) 3 1000 5 5 true (30, 30) (10, 10) 4)
    rfl (by left; decide)

/-- C6: the persisted archive always contains `shifts_rig` with one record per
frame; when piecewise-rigid was not run, `x_shifts_els` and `y_shifts_els` are
stored as explicit `None`, never zero-filled; when it was run they hold the
per-patch grids. -/
theorem shift_archive_contents {α : Type} (pwRigid : Bool)
    (register : α → ℚ × ℚ) (frames : List α) (xGrids yGrids : List (List ℚ)) :
    (saveShifts pwRigid (rigidShiftRecords register frames) xGrids
        yGrids).shiftsRig.length = frames.length ∧
    (pwRigid = false →
      (saveShifts pwRigid (rigidShiftRecords register frames) xGrids
          yGrids).xShiftsEls = none ∧
      (saveShifts pwRigid (rigidShiftRecords register frames) xGrids
          yGrids).yShiftsEls = none) ∧
    (pwRigid = true →
      (saveShifts pwRigid (rigidShiftRecords register frames) xGrids
          yGrids).xShiftsEls = some xGrids ∧
      (saveShifts pwRigid (rigidShiftRecords register frames) xGrids
          yGrids).yShiftsEls = some yGrids) := by
  refine ⟨by simp [saveShifts, rigidShiftRecords], ?_, ?_⟩ <;>
    intro h <;> subst h <;> simp [saveShifts]

/-- Witness for C6: a rigid-only run over three frames. -/
theorem shift_archive_contents_witness :
    (saveShifts false
        (rigidShiftRecords (fun i : ℕ => ((i : ℚ), 0)) [0, 1, 2]) [] []).shiftsRig.length
      = ([0, 1, 2] : List ℕ).length ∧
    (false = false →
      (saveShifts false
          (rigidShiftRecords (fun i : ℕ => ((i : ℚ), 0)) [0, 1, 2]) [] []).xShiftsEls
        = none ∧
      (saveShifts false
          (rigidShiftRecords (fun i : ℕ => ((i : ℚ), 0)) [0, 1, 2]) [] []).yShiftsEls
        = none) ∧
    (false = true →
      (saveShifts false
          (rigidShiftRecords (fun i : ℕ => ((i : ℚ), 0)) [0, 1, 2]) [] []).xShiftsEls
        = some [] ∧
      (saveShifts false
          (rigidShiftRecords (fun i : ℕ => ((i : ℚ), 0)) [0, 1, 2]) [] []).yShiftsEls
        = some []) :=
  shift_archive_contents false (fun i : ℕ => ((i : ℚ), 0)) [0, 1, 2] [] []

set_option maxRecDepth 40000 in
/-- C7 counterexample: with a 500-frame stack and `splits=4`, `compute_shifts`
passes 125 to the engine as `splits_rig`, and the engine's chunking then
consists of chunks of length 4, not 125: the claim that the chunking consists
of 125-frame chunks is false. -/
theorem splits_four_not_125_frame_chunks :
    (computeShiftsCall 500 (.scalar 1) (.scalar 6) 3 (100, 100) (24, 24) 4
        none).splitsRig = 125 ∧
    ¬ (∀ c ∈ engineChunks 500 125, c.stop - c.start = 125) := by
  refine ⟨rfl, fun h => ?_⟩
  have h0 : (⟨0, 4⟩ : Chunk) ∈ engineChunks 500 125 := by decide
  simpa using h _ h0

set_option maxRecDepth 40000 in
/-- C7 amended: with a 500-frame stack and `splits=4` (frames per chunk),
`compute_shifts` passes `ceil(500/4) = 125` to the engine as the chunk count,
yielding 125 chunks of 4 frames each, and the run is rigid-only
(`pw_rigid=False`, `save_movie=False`). -/
theorem splits_four_yields_125_chunks_of_4 :
    (computeShiftsCall 500 (.scalar 1) (.scalar 6) 3 (100, 100) (24, 24) 4
        none).splitsRig = 125 ∧
    (engineChunks 500 125).length = 125 ∧
    (∀ c ∈ engineChunks 500 125, c.stop - c.start = 4) ∧
    (computeShiftsCall 500 (.scalar 1) (.scalar 6) 3 (100, 100) (24, 24) 4
        none).pwRigid = false ∧
    (computeShiftsCall 500 (.scalar 1) (.scalar 6) 3 (100, 100) (24, 24) 4
        none).saveMovie = false := by
  refine ⟨rfl, by decide, by decide, rfl, rfl⟩

/-- The chunk count times the chunk size covers the frame range but overshoots
by less than one chunk. -/
theorem numChunks_mul_bounds (T fps : ℕ) (h : 0 < fps) :
    T ≤ numChunks T fps * fps ∧ numChunks T fps * fps < T + fps := by
  have hmod : (T + fps - 1) % fps < fps := Nat.mod_lt _ h
  have hdiv : fps * ((T + fps - 1) / fps) + (T + fps - 1) % fps = T + fps - 1 :=
    Nat.div_add_mod _ _
  unfold numChunks
  rw [Nat.mul_comm]
  generalize hm : fps * ((T + fps - 1) / fps) = m at hdiv ⊢
  omega

/-- The chunk count is the rational ceiling of `T / fps`. -/
theorem numChunks_eq_ceil (T fps : ℕ) (hfps : 0 < fps) :
    (numChunks T fps : ℤ) = ⌈(T : ℚ) / (fps : ℚ)⌉ := by
  obtain ⟨h1, h2⟩ := numChunks_mul_bounds T fps hfps
  have hq : (0 : ℚ) < (fps : ℚ) := by exact_mod_cast hfps
  have c1 : (T : ℚ) ≤ (numChunks T fps : ℚ) * (fps : ℚ) := by exact_mod_cast h1
  have c2 : (numChunks T fps : ℚ) * (fps : ℚ) < (T : ℚ) + (fps : ℚ) := by
    exact_mod_cast h2
  symm
  rw [Int.ceil_eq_iff]
  refine ⟨?_, ?_⟩
  · rw [lt_div_iff₀ hq]
    push_cast
    nlinarith [c2]
  · rw [div_le_iff₀ hq]
    push_cast
    exact c1

/-- Every index strictly below the chunk count starts a chunk within range. -/
theorem mul_fps_le_of_lt_numChunks (T fps j : ℕ) (hfps : 0 < fps)
    (hj : j < numChunks T fps) : j * fps ≤ T := by
  obtain ⟨h1, h2⟩ := numChunks_mul_bounds T fps hfps
  have h3 : j * fps ≤ (numChunks T fps - 1) * fps :=
    mul_le_mul_right' (by omega) fps
  rw [Nat.sub_mul, one_mul] at h3
  generalize hm : numChunks T fps * fps = m at h2 h3
  omega

/-- The number of planned chunks is the chunk count. -/
theorem planChunks_length (T fps : ℕ) :
    (planChunks T fps).length = numChunks T fps := by
  simp [planChunks]

/-- Closed form of the `i`-th planned chunk. -/
theorem planChunks_get (T fps i : ℕ) (h : i < (planChunks T fps).length) :
    (planChunks T fps).get ⟨i, h⟩ =
      ⟨i * fps, min ((i + 1) * fps) T⟩ := by
  simp [planChunks]

/-- The full chunk-planning contract: the chunk count is `ceil(T / fps)`, the
plan has that many chunks, every chunk has length at most `fps` and stays
inside `[0, T)`, consecutive chunks are contiguous, and every frame of
`[0, T)` lies in exactly one chunk. -/
def ChunkPlanCorrect (T fps : ℕ) : Prop :=
  (numChunks T fps : ℤ) = ⌈(T : ℚ) / (fps : ℚ)⌉ ∧
  (planChunks T fps).length = numChunks T fps ∧
  (∀ c ∈ planChunks T fps, c.stop - c.start ≤ fps ∧ c.stop ≤ T) ∧
  (∀ i : ℕ, ∀ hi : i + 1 < (planChunks T fps).length,
    ((planChunks T fps).get ⟨i + 1, hi⟩).start =
      ((planChunks T fps).get ⟨i, Nat.lt_of_succ_lt hi⟩).stop) ∧
  (∀ t : ℕ, t < T → ∃! i : ℕ, ∃ hi : i < (planChunks T fps).length,
    ((planChunks T fps).get ⟨i, hi⟩).mem t)

/-- C1: for every total frame count `T > 0` and chunk size `fps > 0`, the
pipeline's chunk count equals `ceil(T / fps)` and the chunks partition
`[0, T)` contiguously and exhaustively, with no gap and no overlap. -/
theorem chunk_planning_partitions (T fps : ℕ) (hT : 0 < T) (hfps : 0 < fps) :
    ChunkPlanCorrect T fps := by
  obtain ⟨hcov, hover⟩ := numChunks_mul_bounds T fps hfps
  refine ⟨numChunks_eq_ceil T fps hfps, planChunks_length T fps, ?_, ?_, ?_⟩
  · intro c hc
    simp only [planChunks, List.mem_map, List.mem_range] at hc
    obtain ⟨i, hi, rfl⟩ := hc
    have hstep : (i + 1) * fps = i * fps + fps := by
      rw [add_mul, one_mul]
    simp only [hstep]
    generalize i * fps = a
    omega
  · intro i hi
    rw [planChunks_get, planChunks_get]
    have hi' : i + 1 < numChunks T fps := by
      simpa [planChunks_length] using hi
    have hle : (i + 1) * fps ≤ T :=
      mul_fps_le_of_lt_numChunks T fps (i + 1) hfps hi'
    simp [Nat.min_eq_left hle]
  · intro t ht
    have htlt : t < numChunks T fps * fps := lt_of_lt_of_le ht hcov
    have hidx : t / fps < numChunks T fps :=
      (Nat.div_lt_iff_lt_mul hfps).mpr htlt
    have hlen : t / fps < (planChunks T fps).length := by
      simpa [planChunks_length] using hidx
    have hmemlow : t / fps * fps ≤ t := Nat.div_mul_le_self t fps
    have hmemhigh : t < (t / fps + 1) * fps := by
      have hdm : fps * (t / fps) + t % fps = t := Nat.div_add_mod t fps
      have hm : t % fps < fps := Nat.mod_lt _ hfps
      rw [add_mul, one_mul, Nat.mul_comm]
      generalize hA : fps * (t / fps) = A at hdm ⊢
      omega
    refine ⟨t / fps, ⟨hlen, ?_⟩, ?_⟩
    · rw [planChunks_get]
      exact ⟨hmemlow, lt_min hmemhigh ht⟩
    · intro j hj
      obtain ⟨hjlen, hjmem⟩ := hj
      rw [planChunks_get] at hjmem
      obtain ⟨hjlow, hjhigh⟩ := hjmem
      have hjhigh' : t < (j + 1) * fps := lt_of_lt_of_le hjhigh (min_le_left _ _)
      have hub : t / fps < j + 1 := (Nat.div_lt_iff_lt_mul hfps).mpr hjhigh'
      have hlb : j ≤ t / fps := (Nat.le_div_iff_mul_le hfps).mpr hjlow
      omega

/-- Witness for C1: five frames split into chunks of two. -/
theorem chunk_planning_partitions_witness :
    0 < 5 ∧ 0 < 2 ∧ ChunkPlanCorrect 5 2 :=
  ⟨by decide, by decide, chunk_planning_partitions 5 2 (by decide) (by decide)⟩
